import Mathlib

/-!
Verification development for the oae-fabric cluster-upgrade orchestrator.

The two modules `fabfile/cluster/search/__init__.py` and
`fabfile/cluster/db/__init__.py` each define two Fabric tasks, `upgrade`
(cluster-wide) and `upgrade_host` (single host).  Each task is a
straight-line sequence of `with settings(hosts=..., parallel=...)` blocks,
each containing one or more `execute(op)` dispatches, optionally guarded by
the boolean options of the task.

We embed each task as a function producing the ordered list of dispatch
steps it issues (a `Step` list): the credential-caching step first, then one
`Phase` per `execute` call, carrying the resolved host list, the parallel
flag of the enclosing `settings` block, and the job (the list of leaf
operations run sequentially on each host for that dispatch).

The leaf operations themselves (puppet, apt, search, hilary, db modules),
the host-group resolver (`cluster.hosts`), the credential cache
(`cluster.util.ensure_sudo_pass`) and the remote executor (the Fabric
`execute` machinery) are external to the two source files; their behaviour
is modelled from the contracts in the specification where a claim depends
on it.
-/

/-- One leaf operation from the operation catalog, as invoked by the two
modules.  `search_delete_index` carries the index name it is invoked with. -/
inductive Leaf where
  | puppet_stop
  | puppet_git_update
  | puppet_run
  | puppet_start
  | search_delete_index (index_name : String)
  | search_uninstall
  | apt_update
  | search_stop
  | search_start
  | hilary_stop
  | hilary_start
  | hilary_wait_until_ready
  | db_drain
  | db_stop
  | db_start
  | db_wait_until_ready
  | db_upgradesstables
deriving DecidableEq

/-- One dispatched phase: a single `execute(op)` under a `settings` block.
`hosts` is the resolved host list of the block, `parallel` its parallel
flag, and `job` the sequence of leaf operations the dispatched task runs on
each host (a single leaf for plain operations, the five-step maintenance
sequence for the db `upgrade_host_internal` task). -/
structure Phase where
  hosts : List String
  parallel : Bool
  job : List Leaf
deriving DecidableEq

/-- One step of a procedure: the credential-caching step, or a dispatched
phase. -/
inductive Step where
  | cred
  | phase (p : Phase)
deriving DecidableEq

/-- Modelled from the spec: the fatal procedure errors `CredentialError`
and `ResolutionError` (§7); the resolver and credential source are missing
from the two source files. -/
inductive Err where
  | credentialError
  | resolutionError
deriving DecidableEq

/-- The environment a run resolves against: the host groups returned by the
external `cluster.hosts` resolver (`search()`, `app()`, `db()`, `puppet()`)
and the optional `search_index_name` attribute of the Fabric `env`. -/
structure Env where
  search : List String
  app : List String
  db : List String
  puppet : String
  search_index_name : Option String
deriving DecidableEq

namespace cluster.search

/-- Embeds `search_index_name()`:
`return getattr(env, "search_index_name", "oae")`. -/
def search_index_name (env : Env) : String :=
  env.search_index_name.getD "oae"

/-- The step list of the cluster-wide search `upgrade` task, given the
resolved search group (with its first element `s0`), the first app host
`a0` (only consulted when `rebuild_index` is set), and the three options.
Mirrors the body of `upgrade` in `fabfile/cluster/search/__init__.py`. -/
def upgrade_steps (env : Env) (s : List String) (s0 : String) (a0 : String)
    (delete_index rebuild_index uninstall : Bool) : List Step :=
  [Step.cred,
   Step.phase ⟨s, true, [Leaf.puppet_stop]⟩,
   Step.phase ⟨[env.puppet], true, [Leaf.puppet_git_update]⟩]
  ++ (if delete_index then
        [Step.phase ⟨[s0], false, [Leaf.search_delete_index (search_index_name env)]⟩]
      else [])
  ++ (if uninstall then
        [Step.phase ⟨s, true, [Leaf.search_uninstall]⟩,
         Step.phase ⟨s, true, [Leaf.apt_update]⟩]
      else [])
  ++ [Step.phase ⟨s, true, [Leaf.search_stop]⟩,
      Step.phase ⟨s, true, [Leaf.puppet_run]⟩,
      Step.phase ⟨s, true, [Leaf.search_start]⟩]
  ++ (if rebuild_index then
        [Step.phase ⟨[a0], false, [Leaf.hilary_stop]⟩,
         Step.phase ⟨[a0], false, [Leaf.hilary_start]⟩,
         Step.phase ⟨[a0], false, [Leaf.hilary_wait_until_ready]⟩]
      else [])
  ++ [Step.phase ⟨s, true, [Leaf.puppet_start]⟩]

/-- The cluster-wide search `upgrade` task.  Host-group resolution is
Modelled from the spec: the `cluster.hosts` resolver is external, and a
required group resolving to an empty set is a fatal `ResolutionError`
rather than a silent no-op (§3, §7); the app group is only resolved when
`rebuild_index` is set, as in the source. -/
def upgrade (env : Env) (delete_index rebuild_index uninstall : Bool) :
    Except Err (List Step) :=
  match env.search, rebuild_index, env.app with
  | [], _, _ => Except.error Err.resolutionError
  | _ :: _, true, [] => Except.error Err.resolutionError
  | s0 :: s, true, a0 :: _ =>
      Except.ok (upgrade_steps env (s0 :: s) s0 a0 delete_index true uninstall)
  | s0 :: s, false, _ =>
      Except.ok (upgrade_steps env (s0 :: s) s0 "" delete_index false uninstall)

/-- Default option values of both search tasks, from the source signatures
`upgrade(delete_index=False, rebuild_index=False, uninstall=True)`. -/
def default_delete_index : Bool := false

/-- Default for `rebuild_index` in both search task signatures. -/
def default_rebuild_index : Bool := false

/-- Default for `uninstall` in both search task signatures. -/
def default_uninstall : Bool := true

/-- Default for `hilary_reboot_host` in the `upgrade_host` signature. -/
def default_hilary_reboot_host : String := "pp0"

/-- The single-host search `upgrade_host` task, run against the target
host chosen by the caller; bare `execute` calls dispatch to that host alone, and the
rebuild bounce targets `hilary_reboot_host`.  Mirrors the body of
`upgrade_host` in `fabfile/cluster/search/__init__.py`. -/
def upgrade_host (env : Env) (host : String)
    (delete_index rebuild_index uninstall : Bool)
    (hilary_reboot_host : String) : List Step :=
  [Step.cred,
   Step.phase ⟨[host], false, [Leaf.puppet_stop]⟩]
  ++ (if delete_index then
        [Step.phase ⟨[host], false, [Leaf.search_delete_index (search_index_name env)]⟩]
      else [])
  ++ (if uninstall then [Step.phase ⟨[host], false, [Leaf.search_uninstall]⟩] else [])
  ++ [Step.phase ⟨[host], false, [Leaf.search_stop]⟩,
      Step.phase ⟨[host], false, [Leaf.puppet_run]⟩,
      Step.phase ⟨[host], false, [Leaf.search_start]⟩]
  ++ (if rebuild_index then
        [Step.phase ⟨[hilary_reboot_host], false, [Leaf.hilary_stop]⟩,
         Step.phase ⟨[hilary_reboot_host], false, [Leaf.hilary_start]⟩,
         Step.phase ⟨[hilary_reboot_host], false, [Leaf.hilary_wait_until_ready]⟩]
      else [])
  ++ [Step.phase ⟨[host], false, [Leaf.puppet_start]⟩]

end cluster.search

namespace cluster.db

/-- Embeds `upgrade_host_internal`: the five maintenance calls
`db.drain(); db.stop(); db.start(); db.wait_until_ready();
db.upgradesstables()` run in order on one host within a single dispatch. -/
def upgrade_host_internal : List Leaf :=
  [Leaf.db_drain, Leaf.db_stop, Leaf.db_start,
   Leaf.db_wait_until_ready, Leaf.db_upgradesstables]

/-- The step list of the cluster-wide db `upgrade` task over the resolved
db group.  Mirrors the body of `upgrade` in
`fabfile/cluster/db/__init__.py`: all phases parallel except the
maintenance dispatch, which carries `parallel=False`. -/
def upgrade_steps (env : Env) (d : List String) : List Step :=
  [Step.cred,
   Step.phase ⟨d, true, [Leaf.puppet_stop]⟩,
   Step.phase ⟨[env.puppet], true, [Leaf.puppet_git_update]⟩,
   Step.phase ⟨d, true, [Leaf.puppet_run]⟩,
   Step.phase ⟨d, false, upgrade_host_internal⟩,
   Step.phase ⟨d, true, [Leaf.puppet_start]⟩]

/-- The cluster-wide db `upgrade` task.  Host-group resolution is Modelled
from the spec, as for the search task: an empty required group is a fatal
`ResolutionError` (§3, §7). -/
def upgrade (env : Env) : Except Err (List Step) :=
  match env.db with
  | [] => Except.error Err.resolutionError
  | d0 :: d => Except.ok (upgrade_steps env (d0 :: d))

/-- The single-host db `upgrade_host` task, run against the target host
chosen by the caller.  Mirrors the body of `upgrade_host` in
`fabfile/cluster/db/__init__.py`. -/
def upgrade_host (host : String) : List Step :=
  [Step.cred,
   Step.phase ⟨[host], false, [Leaf.puppet_stop]⟩,
   Step.phase ⟨[host], false, [Leaf.puppet_run]⟩,
   Step.phase ⟨[host], false, upgrade_host_internal⟩,
   Step.phase ⟨[host], false, [Leaf.puppet_start]⟩]

end cluster.db

/-- One remote call actually issued: a leaf operation on a host. -/
structure Call where
  host : String
  leaf : Leaf
deriving DecidableEq

/-- Modelled from the spec: running a job (sequence of leaf operations) on
one host, the per-host part of the missing remote executor; each step must complete before the next begins on the same host,
and a failure aborts the rest of the job (§4.3).  `f host leaf = true`
means the leaf operation fails on that host.  Returns the calls issued and
the failing leaf, if any. -/
def runJob (f : String → Leaf → Bool) (host : String) :
    List Leaf → List Call × Option Leaf
  | [] => ([], none)
  | l :: ls =>
    if f host l then ([Call.mk host l], some l)
    else (Call.mk host l :: (runJob f host ls).1, (runJob f host ls).2)

/-- Modelled from the spec: serial dispatch over a host list by the
missing remote executor; hosts are
processed one at a time in group order, and a failure on host i prevents
the job from starting on host i+1 (§3, §7).  Returns calls issued and the
first failing call, if any. -/
def runSerialHosts (f : String → Leaf → Bool) (job : List Leaf) :
    List String → List Call × Option Call
  | [] => ([], none)
  | h :: hs =>
    match runJob f h job with
    | (cs, some l) => (cs, some (Call.mk h l))
    | (cs, none) =>
      (cs ++ (runSerialHosts f job hs).1, (runSerialHosts f job hs).2)

/-- Modelled from the spec: parallel dispatch over a host list by the
missing remote executor; the job is
dispatched to every host regardless of the outcomes on other hosts
(siblings of a
failed task are allowed to finish), and the phase fails if any host fails
(§5, §7). -/
def runParallelHosts (f : String → Leaf → Bool) (job : List Leaf)
    (hs : List String) : List Call × Option Call :=
  ((hs.map (fun h => (runJob f h job).1)).flatten,
   (hs.filterMap (fun h => Option.map (Call.mk h) (runJob f h job).2)).head?)

/-- Dispatch of one phase, honoring its execution mode. -/
def runPhase (f : String → Leaf → Bool) (p : Phase) : List Call × Option Call :=
  if p.parallel then runParallelHosts f p.job p.hosts
  else runSerialHosts f p.job p.hosts

/-- Modelled from the spec: the missing remote executor running the step
list of a procedure; phases never
overlap, a failed phase aborts all subsequent phases, and completed phases
are not rolled back (§4.1, §5, §7).  The credential step issues no remote
call. -/
def runSteps (f : String → Leaf → Bool) : List Step → List Call × Option Call
  | [] => ([], none)
  | Step.cred :: ss => runSteps f ss
  | Step.phase p :: ss =>
    match runPhase f p with
    | (cs, some c) => (cs, some c)
    | (cs, none) => (cs ++ (runSteps f ss).1, (runSteps f ss).2)

/-- Modelled from the spec: the credential-cache state of the missing
`cluster.util` module, the sudo password cached for this run, if any; the
cache holds at most one run-scoped secret (§4.2). -/
structure CredState where
  sudo_password : Option String
deriving DecidableEq

/-- Modelled from the spec: the missing `cluster.util.ensure_sudo_pass`,
the `EnsureCredential()` step; it prompts (with result
`promptResult`) and stores the secret when none is cached, and is a no-op
returning the cached value otherwise (§4.2).  Returns the new state, the
value, and whether a prompt was performed. -/
def ensure_sudo_pass (promptResult : String) (st : CredState) :
    CredState × String × Bool :=
  match st.sudo_password with
  | some s => (st, s, false)
  | none => (CredState.mk (some promptResult), promptResult, true)

/-- True when the leaf is the index-deletion operation. -/
def leafIsDelete : Leaf → Bool
  | Leaf.search_delete_index _ => true
  | _ => false

/-- True when the leaf is one of the app-node (hilary) bounce operations. -/
def leafIsHilary : Leaf → Bool
  | Leaf.hilary_stop => true
  | Leaf.hilary_start => true
  | Leaf.hilary_wait_until_ready => true
  | _ => false

/-- True when some leaf of the job of the step satisfies `P`. -/
def stepHas (P : Leaf → Bool) : Step → Bool
  | Step.cred => false
  | Step.phase p => p.job.any P

/-- True when the leaf is the package-uninstall operation. -/
def leafIsUninstall : Leaf → Bool
  | Leaf.search_uninstall => true
  | _ => false

/-- True when the leaf is the apply-configuration operation
(`puppet.run`). -/
def leafIsApplyConfig : Leaf → Bool
  | Leaf.puppet_run => true
  | _ => false

/-- C1: for the cluster-wide search upgrade with `delete_index=false`,
`rebuild_index=false`, `uninstall=true` against a 3-node search group and a
1-node app group, the dispatched phases are exactly: stop agent (search
group, parallel), pull configuration (puppet host), uninstall (parallel),
package update (parallel), stop service (parallel), apply configuration
(parallel), start service (parallel), start agent (parallel); and no
index-deletion or app-node operation appears in any dispatched step. -/
theorem search_cluster_upgrade_scenarioA (env : Env) (s1 s2 s3 a1 : String)
    (hs : env.search = [s1, s2, s3]) (ha : env.app = [a1]) :
    cluster.search.upgrade env false false true = Except.ok
      [Step.cred,
       Step.phase ⟨[s1, s2, s3], true, [Leaf.puppet_stop]⟩,
       Step.phase ⟨[env.puppet], true, [Leaf.puppet_git_update]⟩,
       Step.phase ⟨[s1, s2, s3], true, [Leaf.search_uninstall]⟩,
       Step.phase ⟨[s1, s2, s3], true, [Leaf.apt_update]⟩,
       Step.phase ⟨[s1, s2, s3], true, [Leaf.search_stop]⟩,
       Step.phase ⟨[s1, s2, s3], true, [Leaf.puppet_run]⟩,
       Step.phase ⟨[s1, s2, s3], true, [Leaf.search_start]⟩,
       Step.phase ⟨[s1, s2, s3], true, [Leaf.puppet_start]⟩] ∧
    (∀ steps, cluster.search.upgrade env false false true = Except.ok steps →
      ∀ st ∈ steps, stepHas leafIsDelete st = false ∧ stepHas leafIsHilary st = false) := by
  have h1 : cluster.search.upgrade env false false true = Except.ok
      [Step.cred,
       Step.phase ⟨[s1, s2, s3], true, [Leaf.puppet_stop]⟩,
       Step.phase ⟨[env.puppet], true, [Leaf.puppet_git_update]⟩,
       Step.phase ⟨[s1, s2, s3], true, [Leaf.search_uninstall]⟩,
       Step.phase ⟨[s1, s2, s3], true, [Leaf.apt_update]⟩,
       Step.phase ⟨[s1, s2, s3], true, [Leaf.search_stop]⟩,
       Step.phase ⟨[s1, s2, s3], true, [Leaf.puppet_run]⟩,
       Step.phase ⟨[s1, s2, s3], true, [Leaf.search_start]⟩,
       Step.phase ⟨[s1, s2, s3], true, [Leaf.puppet_start]⟩] := by
    rw [cluster.search.upgrade.eq_def, hs]
    simp [cluster.search.upgrade_steps]
  refine ⟨h1, ?_⟩
  intro steps hok
  rw [h1] at hok
  cases hok
  intro st hst
  simp only [List.mem_cons, List.not_mem_nil, or_false] at hst
  rcases hst with rfl | rfl | rfl | rfl | rfl | rfl | rfl | rfl | rfl <;>
    simp [stepHas, leafIsDelete, leafIsHilary]

/-- Witness for C1 at a concrete environment. -/
theorem search_cluster_upgrade_scenarioA_witness :
    cluster.search.upgrade ⟨["s1", "s2", "s3"], ["a1"], [], "pp", none⟩ false false true =
      Except.ok
      [Step.cred,
       Step.phase ⟨["s1", "s2", "s3"], true, [Leaf.puppet_stop]⟩,
       Step.phase ⟨["pp"], true, [Leaf.puppet_git_update]⟩,
       Step.phase ⟨["s1", "s2", "s3"], true, [Leaf.search_uninstall]⟩,
       Step.phase ⟨["s1", "s2", "s3"], true, [Leaf.apt_update]⟩,
       Step.phase ⟨["s1", "s2", "s3"], true, [Leaf.search_stop]⟩,
       Step.phase ⟨["s1", "s2", "s3"], true, [Leaf.puppet_run]⟩,
       Step.phase ⟨["s1", "s2", "s3"], true, [Leaf.search_start]⟩,
       Step.phase ⟨["s1", "s2", "s3"], true, [Leaf.puppet_start]⟩] ∧
    (∀ steps,
      cluster.search.upgrade ⟨["s1", "s2", "s3"], ["a1"], [], "pp", none⟩ false false true =
        Except.ok steps →
      ∀ st ∈ steps, stepHas leafIsDelete st = false ∧ stepHas leafIsHilary st = false) :=
  search_cluster_upgrade_scenarioA ⟨["s1", "s2", "s3"], ["a1"], [], "pp", none⟩
    "s1" "s2" "s3" "a1" rfl rfl

/-- C2: the per-host maintenance sub-sequence is exactly drain, stop,
start, wait-until-ready, upgradesstables in that order, and the single-host
db upgrade, run against a target host on which every operation succeeds,
issues its calls (including the full maintenance sub-sequence in order)
against that host only. -/
theorem db_upgrade_host_target_only (t : String) (f : String → Leaf → Bool)
    (hok : ∀ l, f t l = false) :
    cluster.db.upgrade_host_internal =
      [Leaf.db_drain, Leaf.db_stop, Leaf.db_start,
       Leaf.db_wait_until_ready, Leaf.db_upgradesstables] ∧
    runSteps f (cluster.db.upgrade_host t) =
      ([Call.mk t Leaf.puppet_stop, Call.mk t Leaf.puppet_run,
        Call.mk t Leaf.db_drain, Call.mk t Leaf.db_stop, Call.mk t Leaf.db_start,
        Call.mk t Leaf.db_wait_until_ready, Call.mk t Leaf.db_upgradesstables,
        Call.mk t Leaf.puppet_start], none) ∧
    ∀ c ∈ (runSteps f (cluster.db.upgrade_host t)).1, c.host = t := by
  have h1 : runSteps f (cluster.db.upgrade_host t) =
      ([Call.mk t Leaf.puppet_stop, Call.mk t Leaf.puppet_run,
        Call.mk t Leaf.db_drain, Call.mk t Leaf.db_stop, Call.mk t Leaf.db_start,
        Call.mk t Leaf.db_wait_until_ready, Call.mk t Leaf.db_upgradesstables,
        Call.mk t Leaf.puppet_start], none) := by
    simp [cluster.db.upgrade_host, cluster.db.upgrade_host_internal,
      runSteps, runPhase, runSerialHosts, runJob, hok]
  refine ⟨rfl, h1, ?_⟩
  rw [h1]
  intro c hc
  simp only [List.mem_cons, List.not_mem_nil, or_false] at hc
  rcases hc with rfl | rfl | rfl | rfl | rfl | rfl | rfl | rfl <;> rfl

/-- Witness for C2 at host `db-3` with an all-succeeding operation
outcome. -/
theorem db_upgrade_host_target_only_witness :
    cluster.db.upgrade_host_internal =
      [Leaf.db_drain, Leaf.db_stop, Leaf.db_start,
       Leaf.db_wait_until_ready, Leaf.db_upgradesstables] ∧
    runSteps (fun _ _ => false) (cluster.db.upgrade_host "db-3") =
      ([Call.mk "db-3" Leaf.puppet_stop, Call.mk "db-3" Leaf.puppet_run,
        Call.mk "db-3" Leaf.db_drain, Call.mk "db-3" Leaf.db_stop,
        Call.mk "db-3" Leaf.db_start, Call.mk "db-3" Leaf.db_wait_until_ready,
        Call.mk "db-3" Leaf.db_upgradesstables,
        Call.mk "db-3" Leaf.puppet_start], none) ∧
    ∀ c ∈ (runSteps (fun _ _ => false) (cluster.db.upgrade_host "db-3")).1,
      c.host = "db-3" :=
  db_upgrade_host_target_only "db-3" (fun _ _ => false) (fun _ => rfl)

/-- C8: for the cluster-wide search upgrade with `delete_index=true`,
`rebuild_index=true`, `uninstall=false`, the dispatched step list is
exactly: stop agent, pull configuration, delete index on exactly one host
of the search group (its first), stop service, apply configuration, start
service, then the app-node bounce (stop, start, wait-until-ready, in that
order, on exactly one app host, the first of the group), then start agent;
in
particular the single index deletion precedes the apply-configuration
phase, and the app bounce follows the service start. -/
theorem search_cluster_upgrade_scenarioB (env : Env) (s0 a0 : String)
    (s a : List String) (hs : env.search = s0 :: s) (ha : env.app = a0 :: a) :
    cluster.search.upgrade env true true false = Except.ok
      [Step.cred,
       Step.phase ⟨s0 :: s, true, [Leaf.puppet_stop]⟩,
       Step.phase ⟨[env.puppet], true, [Leaf.puppet_git_update]⟩,
       Step.phase ⟨[s0], false,
         [Leaf.search_delete_index (cluster.search.search_index_name env)]⟩,
       Step.phase ⟨s0 :: s, true, [Leaf.search_stop]⟩,
       Step.phase ⟨s0 :: s, true, [Leaf.puppet_run]⟩,
       Step.phase ⟨s0 :: s, true, [Leaf.search_start]⟩,
       Step.phase ⟨[a0], false, [Leaf.hilary_stop]⟩,
       Step.phase ⟨[a0], false, [Leaf.hilary_start]⟩,
       Step.phase ⟨[a0], false, [Leaf.hilary_wait_until_ready]⟩,
       Step.phase ⟨s0 :: s, true, [Leaf.puppet_start]⟩] ∧
    s0 ∈ env.search ∧ a0 ∈ env.app := by
  refine ⟨?_, ?_, ?_⟩
  · rw [cluster.search.upgrade.eq_def, hs, ha]
    simp [cluster.search.upgrade_steps]
  · rw [hs]; exact List.mem_cons_self s0 s
  · rw [ha]; exact List.mem_cons_self a0 a

/-- Witness for C8 at a concrete environment with a configured index
name. -/
theorem search_cluster_upgrade_scenarioB_witness :
    cluster.search.upgrade ⟨["s1", "s2"], ["a1", "a2"], [], "pp", some "idx"⟩
      true true false = Except.ok
      [Step.cred,
       Step.phase ⟨["s1", "s2"], true, [Leaf.puppet_stop]⟩,
       Step.phase ⟨["pp"], true, [Leaf.puppet_git_update]⟩,
       Step.phase ⟨["s1"], false,
         [Leaf.search_delete_index (cluster.search.search_index_name
           ⟨["s1", "s2"], ["a1", "a2"], [], "pp", some "idx"⟩)]⟩,
       Step.phase ⟨["s1", "s2"], true, [Leaf.search_stop]⟩,
       Step.phase ⟨["s1", "s2"], true, [Leaf.puppet_run]⟩,
       Step.phase ⟨["s1", "s2"], true, [Leaf.search_start]⟩,
       Step.phase ⟨["a1"], false, [Leaf.hilary_stop]⟩,
       Step.phase ⟨["a1"], false, [Leaf.hilary_start]⟩,
       Step.phase ⟨["a1"], false, [Leaf.hilary_wait_until_ready]⟩,
       Step.phase ⟨["s1", "s2"], true, [Leaf.puppet_start]⟩] ∧
    "s1" ∈ Env.search ⟨["s1", "s2"], ["a1", "a2"], [], "pp", some "idx"⟩ ∧
    "a1" ∈ Env.app ⟨["s1", "s2"], ["a1", "a2"], [], "pp", some "idx"⟩ :=
  search_cluster_upgrade_scenarioB ⟨["s1", "s2"], ["a1", "a2"], [], "pp", some "idx"⟩
    "s1" "a1" ["s2"] ["a2"] rfl rfl

/-- C4: in the cluster-wide db upgrade, the maintenance sub-sequence phase
spans the db group and is dispatched serially, and a dispatched phase is
serial exactly when its job is the maintenance sub-sequence — every other
phase is parallel. -/
theorem db_cluster_upgrade_modes (env : Env) (steps : List Step)
    (hok : cluster.db.upgrade env = Except.ok steps) :
    (∃ p, Step.phase p ∈ steps ∧ p.hosts = env.db ∧ p.parallel = false ∧
       p.job = cluster.db.upgrade_host_internal) ∧
    (∀ p, Step.phase p ∈ steps →
       (p.parallel = false ↔ p.job = cluster.db.upgrade_host_internal)) := by
  rcases hdb : env.db with _ | ⟨d0, d⟩
  · rw [cluster.db.upgrade.eq_def, hdb] at hok
    simp at hok
  · rw [cluster.db.upgrade.eq_def, hdb] at hok
    simp only [Except.ok.injEq] at hok
    subst hok
    constructor
    · refine ⟨⟨d0 :: d, false, cluster.db.upgrade_host_internal⟩, ?_, ?_, rfl, rfl⟩
      · simp [cluster.db.upgrade_steps]
      · rfl
    · intro p hp
      simp only [cluster.db.upgrade_steps, List.mem_cons, List.not_mem_nil, or_false,
        Step.phase.injEq, reduceCtorEq, false_or] at hp
      rcases hp with rfl | rfl | rfl | rfl | rfl <;>
        simp [cluster.db.upgrade_host_internal]

/-- Witness for C4 at a concrete two-node db group. -/
theorem db_cluster_upgrade_modes_witness :
    (∃ p, Step.phase p ∈
        [Step.cred,
         Step.phase ⟨["d1", "d2"], true, [Leaf.puppet_stop]⟩,
         Step.phase ⟨["pp"], true, [Leaf.puppet_git_update]⟩,
         Step.phase ⟨["d1", "d2"], true, [Leaf.puppet_run]⟩,
         Step.phase ⟨["d1", "d2"], false, cluster.db.upgrade_host_internal⟩,
         Step.phase ⟨["d1", "d2"], true, [Leaf.puppet_start]⟩] ∧
       p.hosts = Env.db ⟨[], [], ["d1", "d2"], "pp", none⟩ ∧ p.parallel = false ∧
       p.job = cluster.db.upgrade_host_internal) ∧
    (∀ p, Step.phase p ∈
        [Step.cred,
         Step.phase ⟨["d1", "d2"], true, [Leaf.puppet_stop]⟩,
         Step.phase ⟨["pp"], true, [Leaf.puppet_git_update]⟩,
         Step.phase ⟨["d1", "d2"], true, [Leaf.puppet_run]⟩,
         Step.phase ⟨["d1", "d2"], false, cluster.db.upgrade_host_internal⟩,
         Step.phase ⟨["d1", "d2"], true, [Leaf.puppet_start]⟩] →
       (p.parallel = false ↔ p.job = cluster.db.upgrade_host_internal)) :=
  db_cluster_upgrade_modes ⟨[], [], ["d1", "d2"], "pp", none⟩
    [Step.cred,
     Step.phase ⟨["d1", "d2"], true, [Leaf.puppet_stop]⟩,
     Step.phase ⟨["pp"], true, [Leaf.puppet_git_update]⟩,
     Step.phase ⟨["d1", "d2"], true, [Leaf.puppet_run]⟩,
     Step.phase ⟨["d1", "d2"], false, cluster.db.upgrade_host_internal⟩,
     Step.phase ⟨["d1", "d2"], true, [Leaf.puppet_start]⟩] rfl

/-- C7: a required host group resolving to an empty set makes the
procedure fail with a resolution error instead of producing any step list:
an empty search group fails the cluster-wide search upgrade, an empty app
group fails it whenever the rebuild phase requires that group, and an
empty db group fails the cluster-wide db upgrade. -/
theorem empty_group_resolution_error (env : Env) :
    (env.search = [] → ∀ di ri un,
       cluster.search.upgrade env di ri un = Except.error Err.resolutionError) ∧
    (env.app = [] → ∀ di un,
       cluster.search.upgrade env di true un = Except.error Err.resolutionError) ∧
    (env.db = [] → cluster.db.upgrade env = Except.error Err.resolutionError) := by
  refine ⟨?_, ?_, ?_⟩
  · intro h di ri un
    rw [cluster.search.upgrade.eq_def, h]
  · intro h di un
    rw [cluster.search.upgrade.eq_def, h]
    rcases env.search with _ | ⟨s0, s⟩ <;> rfl
  · intro h
    rw [cluster.db.upgrade.eq_def, h]

/-- Witness for C7 at an environment whose groups are all empty. -/
theorem empty_group_resolution_error_witness :
    (cluster.search.upgrade ⟨[], [], [], "pp", none⟩ false false true =
       Except.error Err.resolutionError) ∧
    (cluster.search.upgrade ⟨["s1"], [], [], "pp", none⟩ false true true =
       Except.error Err.resolutionError) ∧
    (cluster.db.upgrade ⟨[], [], [], "pp", none⟩ =
       Except.error Err.resolutionError) :=
  ⟨(empty_group_resolution_error ⟨[], [], [], "pp", none⟩).1 rfl false false true,
   (empty_group_resolution_error ⟨["s1"], [], [], "pp", none⟩).2.1 rfl false true,
   (empty_group_resolution_error ⟨[], [], [], "pp", none⟩).2.2 rfl⟩

/-- C9: the option defaults recorded from the task signatures are
`delete_index=false`, `rebuild_index=false`, `uninstall=true`; run with
these defaults, both search procedures include the uninstall phase and
dispatch no index-deletion and no app-node (index-rebuild) operation. -/
theorem search_upgrade_default_options (env : Env) (t : String) :
    (cluster.search.default_delete_index = false ∧
     cluster.search.default_rebuild_index = false ∧
     cluster.search.default_uninstall = true) ∧
    (∀ steps, cluster.search.upgrade env cluster.search.default_delete_index
        cluster.search.default_rebuild_index cluster.search.default_uninstall =
          Except.ok steps →
      (∃ p, Step.phase p ∈ steps ∧ Leaf.search_uninstall ∈ p.job) ∧
      ∀ st ∈ steps, stepHas leafIsDelete st = false ∧ stepHas leafIsHilary st = false) ∧
    ((∃ p, Step.phase p ∈ cluster.search.upgrade_host env t
          cluster.search.default_delete_index cluster.search.default_rebuild_index
          cluster.search.default_uninstall cluster.search.default_hilary_reboot_host ∧
        Leaf.search_uninstall ∈ p.job) ∧
     ∀ st ∈ cluster.search.upgrade_host env t cluster.search.default_delete_index
         cluster.search.default_rebuild_index cluster.search.default_uninstall
         cluster.search.default_hilary_reboot_host,
       stepHas leafIsDelete st = false ∧ stepHas leafIsHilary st = false) := by
  refine ⟨⟨rfl, rfl, rfl⟩, ?_, ?_, ?_⟩
  · intro steps hok
    rcases hs : env.search with _ | ⟨s0, s⟩ <;>
      rw [cluster.search.upgrade.eq_def, hs] at hok
    · simp [cluster.search.default_rebuild_index] at hok
    · simp only [cluster.search.default_delete_index, cluster.search.default_rebuild_index,
        cluster.search.default_uninstall, Except.ok.injEq] at hok
      subst hok
      constructor
      · exact ⟨⟨s0 :: s, true, [Leaf.search_uninstall]⟩,
          by simp [cluster.search.upgrade_steps], by simp⟩
      · intro st hst
        simp only [cluster.search.upgrade_steps, Bool.false_eq_true, if_false, if_true,
          List.nil_append, List.append_nil, List.cons_append, List.mem_append,
          List.mem_cons, List.not_mem_nil, or_false, false_or] at hst
        rcases hst with rfl | rfl | rfl | rfl | rfl | rfl | rfl | rfl | rfl <;>
          simp [stepHas, leafIsDelete, leafIsHilary]
  · exact ⟨⟨[t], false, [Leaf.search_uninstall]⟩,
      by simp [cluster.search.upgrade_host, cluster.search.default_delete_index,
        cluster.search.default_rebuild_index, cluster.search.default_uninstall],
      by simp⟩
  · intro st hst
    simp only [cluster.search.upgrade_host, cluster.search.default_delete_index,
      cluster.search.default_rebuild_index, cluster.search.default_uninstall,
      Bool.false_eq_true, if_false, if_true, List.nil_append, List.append_nil,
      List.cons_append, List.mem_append, List.mem_cons, List.not_mem_nil,
      or_false, false_or] at hst
    rcases hst with rfl | rfl | rfl | rfl | rfl | rfl | rfl <;>
      simp [stepHas, leafIsDelete, leafIsHilary]

/-- Witness for C9 at a concrete environment and target host. -/
theorem search_upgrade_default_options_witness :
    (∃ p, Step.phase p ∈
        [Step.cred,
         Step.phase ⟨["s1"], true, [Leaf.puppet_stop]⟩,
         Step.phase ⟨["pp"], true, [Leaf.puppet_git_update]⟩,
         Step.phase ⟨["s1"], true, [Leaf.search_uninstall]⟩,
         Step.phase ⟨["s1"], true, [Leaf.apt_update]⟩,
         Step.phase ⟨["s1"], true, [Leaf.search_stop]⟩,
         Step.phase ⟨["s1"], true, [Leaf.puppet_run]⟩,
         Step.phase ⟨["s1"], true, [Leaf.search_start]⟩,
         Step.phase ⟨["s1"], true, [Leaf.puppet_start]⟩] ∧
       Leaf.search_uninstall ∈ p.job) ∧
    (∀ st ∈
        [Step.cred,
         Step.phase ⟨["s1"], true, [Leaf.puppet_stop]⟩,
         Step.phase ⟨["pp"], true, [Leaf.puppet_git_update]⟩,
         Step.phase ⟨["s1"], true, [Leaf.search_uninstall]⟩,
         Step.phase ⟨["s1"], true, [Leaf.apt_update]⟩,
         Step.phase ⟨["s1"], true, [Leaf.search_stop]⟩,
         Step.phase ⟨["s1"], true, [Leaf.puppet_run]⟩,
         Step.phase ⟨["s1"], true, [Leaf.search_start]⟩,
         Step.phase ⟨["s1"], true, [Leaf.puppet_start]⟩],
       stepHas leafIsDelete st = false ∧ stepHas leafIsHilary st = false) :=
  (search_upgrade_default_options ⟨["s1"], [], [], "pp", none⟩ "t1").2.1
    [Step.cred,
     Step.phase ⟨["s1"], true, [Leaf.puppet_stop]⟩,
     Step.phase ⟨["pp"], true, [Leaf.puppet_git_update]⟩,
     Step.phase ⟨["s1"], true, [Leaf.search_uninstall]⟩,
     Step.phase ⟨["s1"], true, [Leaf.apt_update]⟩,
     Step.phase ⟨["s1"], true, [Leaf.search_stop]⟩,
     Step.phase ⟨["s1"], true, [Leaf.puppet_run]⟩,
     Step.phase ⟨["s1"], true, [Leaf.search_start]⟩,
     Step.phase ⟨["s1"], true, [Leaf.puppet_start]⟩] rfl

/-- Helper: every step list a search cluster upgrade can produce starts
with the credential step and contains no second one. -/
theorem upgrade_steps_cred_head (env : Env) (s : List String) (s0 a0 : String)
    (di ri un : Bool) :
    ∃ tail, cluster.search.upgrade_steps env s s0 a0 di ri un = Step.cred :: tail ∧
      Step.cred ∉ tail := by
  cases di <;> cases ri <;> cases un <;>
    exact ⟨_, rfl, by simp [cluster.search.upgrade_steps]⟩

/-- Helper: the single-host search upgrade starts with the credential step
and contains no second one. -/
theorem upgrade_host_cred_head (env : Env) (t : String) (di ri un : Bool)
    (hrh : String) :
    ∃ tail, cluster.search.upgrade_host env t di ri un hrh = Step.cred :: tail ∧
      Step.cred ∉ tail := by
  cases di <;> cases ri <;> cases un <;>
    exact ⟨_, rfl, by simp [cluster.search.upgrade_host]⟩

/-- C5: every top-level procedure performs the credential-caching step
exactly once, as its first step, before any dispatched phase; and a second
call to `ensure_sudo_pass` within the same run performs no prompt and
returns the value cached by the first call, leaving the state unchanged. -/
theorem credential_step_once_first :
    (∀ env di ri un steps, cluster.search.upgrade env di ri un = Except.ok steps →
       ∃ tail, steps = Step.cred :: tail ∧ Step.cred ∉ tail) ∧
    (∀ env steps, cluster.db.upgrade env = Except.ok steps →
       ∃ tail, steps = Step.cred :: tail ∧ Step.cred ∉ tail) ∧
    (∀ env t di ri un hrh, ∃ tail,
       cluster.search.upgrade_host env t di ri un hrh = Step.cred :: tail ∧
       Step.cred ∉ tail) ∧
    (∀ t, ∃ tail, cluster.db.upgrade_host t = Step.cred :: tail ∧ Step.cred ∉ tail) ∧
    (∀ p1 p2 st, ensure_sudo_pass p2 (ensure_sudo_pass p1 st).1 =
       ((ensure_sudo_pass p1 st).1, (ensure_sudo_pass p1 st).2.1, false)) := by
  refine ⟨?_, ?_, ?_, ?_, ?_⟩
  · intro env di ri un steps hok
    rw [cluster.search.upgrade.eq_def] at hok
    rcases hs : env.search with _ | ⟨s0, s⟩ <;> rw [hs] at hok
    · simp at hok
    · rcases ri
      · simp only [Except.ok.injEq] at hok
        subst hok
        exact upgrade_steps_cred_head env (s0 :: s) s0 "" di false un
      · rcases ha : env.app with _ | ⟨a0, a⟩ <;> rw [ha] at hok
        · simp at hok
        · simp only [Except.ok.injEq] at hok
          subst hok
          exact upgrade_steps_cred_head env (s0 :: s) s0 a0 di true un
  · intro env steps hok
    rw [cluster.db.upgrade.eq_def] at hok
    rcases hd : env.db with _ | ⟨d0, d⟩ <;> rw [hd] at hok
    · simp at hok
    · simp only [Except.ok.injEq] at hok
      subst hok
      exact ⟨_, rfl, by simp [cluster.db.upgrade_steps]⟩
  · exact fun env t di ri un hrh => upgrade_host_cred_head env t di ri un hrh
  · intro t
    exact ⟨_, rfl, by simp [cluster.db.upgrade_host]⟩
  · intro p1 p2 st
    rcases st with ⟨_ | s⟩ <;> rfl

/-- Witness for C5: a cluster run and a repeated credential call at
concrete inputs. -/
theorem credential_step_once_first_witness :
    (∃ tail,
       [Step.cred,
        Step.phase ⟨["s1"], true, [Leaf.puppet_stop]⟩,
        Step.phase ⟨["pp"], true, [Leaf.puppet_git_update]⟩,
        Step.phase ⟨["s1"], true, [Leaf.search_uninstall]⟩,
        Step.phase ⟨["s1"], true, [Leaf.apt_update]⟩,
        Step.phase ⟨["s1"], true, [Leaf.search_stop]⟩,
        Step.phase ⟨["s1"], true, [Leaf.puppet_run]⟩,
        Step.phase ⟨["s1"], true, [Leaf.search_start]⟩,
        Step.phase ⟨["s1"], true, [Leaf.puppet_start]⟩] = Step.cred :: tail ∧
       Step.cred ∉ tail) ∧
    (∃ tail, cluster.db.upgrade_host "d1" = Step.cred :: tail ∧ Step.cred ∉ tail) ∧
    ensure_sudo_pass "q" (ensure_sudo_pass "p" ⟨none⟩).1 =
      ((ensure_sudo_pass "p" ⟨none⟩).1, (ensure_sudo_pass "p" ⟨none⟩).2.1, false) :=
  ⟨credential_step_once_first.1 ⟨["s1"], [], [], "pp", none⟩ false false true
     [Step.cred,
      Step.phase ⟨["s1"], true, [Leaf.puppet_stop]⟩,
      Step.phase ⟨["pp"], true, [Leaf.puppet_git_update]⟩,
      Step.phase ⟨["s1"], true, [Leaf.search_uninstall]⟩,
      Step.phase ⟨["s1"], true, [Leaf.apt_update]⟩,
      Step.phase ⟨["s1"], true, [Leaf.search_stop]⟩,
      Step.phase ⟨["s1"], true, [Leaf.puppet_run]⟩,
      Step.phase ⟨["s1"], true, [Leaf.search_start]⟩,
      Step.phase ⟨["s1"], true, [Leaf.puppet_start]⟩] rfl,
   credential_step_once_first.2.2.2.1 "d1",
   credential_step_once_first.2.2.2.2 "p" "q" ⟨none⟩⟩

/-- Helper: every step of a search cluster upgrade either mentions no
index deletion, or is exactly the single-host deletion phase carrying
`search_index_name env`. -/
theorem upgrade_steps_delete_shape (env : Env) (s : List String) (s0 a0 : String)
    (di ri un : Bool) :
    ∀ st ∈ cluster.search.upgrade_steps env s s0 a0 di ri un,
      stepHas leafIsDelete st = false ∨
      st = Step.phase ⟨[s0], false,
        [Leaf.search_delete_index (cluster.search.search_index_name env)]⟩ := by
  cases di <;> cases ri <;> cases un <;>
    simp [cluster.search.upgrade_steps, stepHas, leafIsDelete]

/-- Helper: every step of a single-host search upgrade either mentions no
index deletion, or is exactly the deletion phase on the target host
carrying `search_index_name env`. -/
theorem upgrade_host_delete_shape (env : Env) (t : String) (di ri un : Bool)
    (hrh : String) :
    ∀ st ∈ cluster.search.upgrade_host env t di ri un hrh,
      stepHas leafIsDelete st = false ∨
      st = Step.phase ⟨[t], false,
        [Leaf.search_delete_index (cluster.search.search_index_name env)]⟩ := by
  cases di <;> cases ri <;> cases un <;>
    simp [cluster.search.upgrade_host, stepHas, leafIsDelete]

/-- C10: the embedded `search_index_name` is the value of the environment
`search_index_name` setting when present and `"oae"` otherwise, and
whenever either search upgrade procedure dispatches the index-deletion
operation, the index name passed to it is exactly that value. -/
theorem delete_index_name_from_env (env : Env) :
    cluster.search.search_index_name env =
      (match env.search_index_name with
       | some s => s
       | none => "oae") ∧
    (∀ di ri un steps p n, cluster.search.upgrade env di ri un = Except.ok steps →
       Step.phase p ∈ steps → Leaf.search_delete_index n ∈ p.job →
       n = (match env.search_index_name with
            | some s => s
            | none => "oae")) ∧
    (∀ t di ri un hrh p n,
       Step.phase p ∈ cluster.search.upgrade_host env t di ri un hrh →
       Leaf.search_delete_index n ∈ p.job →
       n = (match env.search_index_name with
            | some s => s
            | none => "oae")) := by
  have hname : cluster.search.search_index_name env =
      (match env.search_index_name with
       | some s => s
       | none => "oae") := by
    cases henv : env.search_index_name <;>
      simp [cluster.search.search_index_name, henv]
  refine ⟨hname, ?_, ?_⟩
  · intro di ri un steps p n hok hp hn
    rw [cluster.search.upgrade.eq_def] at hok
    rcases hs : env.search with _ | ⟨s0, s⟩ <;> rw [hs] at hok
    · simp at hok
    · have hshape : ∀ (s0' : String) (s' : List String) (a0' : String) (ri' : Bool),
          steps = cluster.search.upgrade_steps env (s0' :: s') s0' a0' di ri' un →
          n = cluster.search.search_index_name env := by
        intro s0' s' a0' ri' hsteps
        subst hsteps
        rcases upgrade_steps_delete_shape env (s0' :: s') s0' a0' di ri' un
            (Step.phase p) hp with hfalse | heq
        · exfalso
          have : p.job.any leafIsDelete = true :=
            List.any_eq_true.mpr ⟨Leaf.search_delete_index n, hn, rfl⟩
          rw [stepHas] at hfalse
          rw [hfalse] at this
          exact Bool.false_ne_true this
        · have hpj : p.job = [Leaf.search_delete_index
              (cluster.search.search_index_name env)] := by
            cases heq
            rfl
          rw [hpj] at hn
          simp at hn
          exact hn
      rcases ri
      · simp only [Except.ok.injEq] at hok
        rw [← hname]
        exact hshape s0 s "" false hok.symm
      · rcases ha : env.app with _ | ⟨a0, a⟩ <;> rw [ha] at hok
        · simp at hok
        · simp only [Except.ok.injEq] at hok
          rw [← hname]
          exact hshape s0 s a0 true hok.symm
  · intro t di ri un hrh p n hp hn
    rcases upgrade_host_delete_shape env t di ri un hrh (Step.phase p) hp with
      hfalse | heq
    · exfalso
      have : p.job.any leafIsDelete = true :=
        List.any_eq_true.mpr ⟨Leaf.search_delete_index n, hn, rfl⟩
      rw [stepHas] at hfalse
      rw [hfalse] at this
      exact Bool.false_ne_true this
    · have hpj : p.job = [Leaf.search_delete_index
          (cluster.search.search_index_name env)] := by
        cases heq
        rfl
      rw [hpj] at hn
      simp at hn
      rw [← hname]
      exact hn

/-- Witness for C10: the single-host upgrade at a configured index name
passes exactly that name to the deletion operation. -/
theorem delete_index_name_from_env_witness :
    "idx" = (match Env.search_index_name ⟨["s1"], [], [], "pp", some "idx"⟩ with
             | some s => s
             | none => "oae") :=
  (delete_index_name_from_env ⟨["s1"], [], [], "pp", some "idx"⟩).2.2 "t1"
    true false true "pp0" ⟨["t1"], false, [Leaf.search_delete_index "idx"]⟩ "idx"
    (by decide) (by decide)

/-- Helper: with `delete_index=false` the step list of the cluster upgrade
mentions no index deletion. -/
theorem upgrade_steps_no_delete (env : Env) (s : List String) (s0 a0 : String)
    (ri un : Bool) :
    ∀ st ∈ cluster.search.upgrade_steps env s s0 a0 false ri un,
      stepHas leafIsDelete st = false := by
  cases ri <;> cases un <;>
    simp [cluster.search.upgrade_steps, stepHas, leafIsDelete]

/-- Helper: with `delete_index=false` the step list of the single-host
upgrade mentions no index deletion. -/
theorem upgrade_host_no_delete (env : Env) (t : String) (ri un : Bool)
    (hrh : String) :
    ∀ st ∈ cluster.search.upgrade_host env t false ri un hrh,
      stepHas leafIsDelete st = false := by
  cases ri <;> cases un <;>
    simp [cluster.search.upgrade_host, stepHas, leafIsDelete]

/-- Helper: with `delete_index=true` the step list of the cluster upgrade
splits
around a unique deletion phase; everything before it is free of deletion,
uninstall, and apply-configuration operations, and everything after it is
free of deletion. -/
theorem upgrade_steps_delete_decomp (env : Env) (s : List String) (s0 a0 : String)
    (ri un : Bool) :
    ∃ A B, cluster.search.upgrade_steps env s s0 a0 true ri un =
        A ++ Step.phase ⟨[s0], false,
          [Leaf.search_delete_index (cluster.search.search_index_name env)]⟩ :: B ∧
      (∀ st ∈ A, stepHas leafIsDelete st = false ∧ stepHas leafIsUninstall st = false ∧
         stepHas leafIsApplyConfig st = false) ∧
      (∀ st ∈ B, stepHas leafIsDelete st = false) := by
  refine ⟨[Step.cred,
           Step.phase ⟨s, true, [Leaf.puppet_stop]⟩,
           Step.phase ⟨[env.puppet], true, [Leaf.puppet_git_update]⟩],
          (if un then
             [Step.phase ⟨s, true, [Leaf.search_uninstall]⟩,
              Step.phase ⟨s, true, [Leaf.apt_update]⟩]
           else [])
          ++ [Step.phase ⟨s, true, [Leaf.search_stop]⟩,
              Step.phase ⟨s, true, [Leaf.puppet_run]⟩,
              Step.phase ⟨s, true, [Leaf.search_start]⟩]
          ++ (if ri then
                [Step.phase ⟨[a0], false, [Leaf.hilary_stop]⟩,
                 Step.phase ⟨[a0], false, [Leaf.hilary_start]⟩,
                 Step.phase ⟨[a0], false, [Leaf.hilary_wait_until_ready]⟩]
              else [])
          ++ [Step.phase ⟨s, true, [Leaf.puppet_start]⟩], ?_, ?_, ?_⟩
  · simp [cluster.search.upgrade_steps]
  · intro st hst
    simp only [List.mem_cons, List.not_mem_nil, or_false] at hst
    rcases hst with rfl | rfl | rfl <;>
      simp [stepHas, leafIsDelete, leafIsUninstall, leafIsApplyConfig]
  · cases ri <;> cases un <;> simp [stepHas, leafIsDelete]

/-- Helper: with `delete_index=true` the step list of the single-host
upgrade splits the same way around its unique deletion phase on the target
host. -/
theorem upgrade_host_delete_decomp (env : Env) (t : String) (ri un : Bool)
    (hrh : String) :
    ∃ A B, cluster.search.upgrade_host env t true ri un hrh =
        A ++ Step.phase ⟨[t], false,
          [Leaf.search_delete_index (cluster.search.search_index_name env)]⟩ :: B ∧
      (∀ st ∈ A, stepHas leafIsDelete st = false ∧ stepHas leafIsUninstall st = false ∧
         stepHas leafIsApplyConfig st = false) ∧
      (∀ st ∈ B, stepHas leafIsDelete st = false) := by
  refine ⟨[Step.cred, Step.phase ⟨[t], false, [Leaf.puppet_stop]⟩],
          (if un then [Step.phase ⟨[t], false, [Leaf.search_uninstall]⟩] else [])
          ++ [Step.phase ⟨[t], false, [Leaf.search_stop]⟩,
              Step.phase ⟨[t], false, [Leaf.puppet_run]⟩,
              Step.phase ⟨[t], false, [Leaf.search_start]⟩]
          ++ (if ri then
                [Step.phase ⟨[hrh], false, [Leaf.hilary_stop]⟩,
                 Step.phase ⟨[hrh], false, [Leaf.hilary_start]⟩,
                 Step.phase ⟨[hrh], false, [Leaf.hilary_wait_until_ready]⟩]
              else [])
          ++ [Step.phase ⟨[t], false, [Leaf.puppet_start]⟩], ?_, ?_, ?_⟩
  · simp [cluster.search.upgrade_host]
  · intro st hst
    simp only [List.mem_cons, List.not_mem_nil, or_false] at hst
    rcases hst with rfl | rfl <;>
      simp [stepHas, leafIsDelete, leafIsUninstall, leafIsApplyConfig]
  · cases ri <;> cases un <;> simp [stepHas, leafIsDelete]

/-- C3: with `delete_index=false` neither search upgrade procedure ever
dispatches the index-deletion operation; with `delete_index=true` each
dispatches it exactly once, before the uninstall phase and before
configuration is applied: the step list splits around a single deletion
phase whose preceding steps contain no deletion, uninstall, or
apply-configuration operation, and whose following steps contain no further
deletion. -/
theorem delete_index_gating :
    (∀ env ri un steps, cluster.search.upgrade env false ri un = Except.ok steps →
       ∀ st ∈ steps, stepHas leafIsDelete st = false) ∧
    (∀ env t ri un hrh st, st ∈ cluster.search.upgrade_host env t false ri un hrh →
       stepHas leafIsDelete st = false) ∧
    (∀ env ri un steps, cluster.search.upgrade env true ri un = Except.ok steps →
       ∃ A B s0 n,
         steps = A ++ Step.phase ⟨[s0], false, [Leaf.search_delete_index n]⟩ :: B ∧
         (∀ st ∈ A, stepHas leafIsDelete st = false ∧ stepHas leafIsUninstall st = false ∧
            stepHas leafIsApplyConfig st = false) ∧
         (∀ st ∈ B, stepHas leafIsDelete st = false)) ∧
    (∀ env t ri un hrh,
       ∃ A B n, cluster.search.upgrade_host env t true ri un hrh =
           A ++ Step.phase ⟨[t], false, [Leaf.search_delete_index n]⟩ :: B ∧
         (∀ st ∈ A, stepHas leafIsDelete st = false ∧ stepHas leafIsUninstall st = false ∧
            stepHas leafIsApplyConfig st = false) ∧
         (∀ st ∈ B, stepHas leafIsDelete st = false)) := by
  refine ⟨?_, ?_, ?_, ?_⟩
  · intro env ri un steps hok
    rw [cluster.search.upgrade.eq_def] at hok
    rcases hs : env.search with _ | ⟨s0, s⟩ <;> rw [hs] at hok
    · simp at hok
    · rcases ri
      · simp only [Except.ok.injEq] at hok
        subst hok
        exact upgrade_steps_no_delete env (s0 :: s) s0 "" false un
      · rcases ha : env.app with _ | ⟨a0, a⟩ <;> rw [ha] at hok
        · simp at hok
        · simp only [Except.ok.injEq] at hok
          subst hok
          exact upgrade_steps_no_delete env (s0 :: s) s0 a0 true un
  · intro env t ri un hrh st hst
    exact upgrade_host_no_delete env t ri un hrh st hst
  · intro env ri un steps hok
    rw [cluster.search.upgrade.eq_def] at hok
    rcases hs : env.search with _ | ⟨s0, s⟩ <;> rw [hs] at hok
    · simp at hok
    · rcases ri
      · simp only [Except.ok.injEq] at hok
        subst hok
        obtain ⟨A, B, he, hA, hB⟩ :=
          upgrade_steps_delete_decomp env (s0 :: s) s0 "" false un
        exact ⟨A, B, s0, cluster.search.search_index_name env, he, hA, hB⟩
      · rcases ha : env.app with _ | ⟨a0, a⟩ <;> rw [ha] at hok
        · simp at hok
        · simp only [Except.ok.injEq] at hok
          subst hok
          obtain ⟨A, B, he, hA, hB⟩ :=
            upgrade_steps_delete_decomp env (s0 :: s) s0 a0 true un
          exact ⟨A, B, s0, cluster.search.search_index_name env, he, hA, hB⟩
  · intro env t ri un hrh
    obtain ⟨A, B, he, hA, hB⟩ := upgrade_host_delete_decomp env t ri un hrh
    exact ⟨A, B, cluster.search.search_index_name env, he, hA, hB⟩

/-- Witness for C3: a concrete run without and with the delete option. -/
theorem delete_index_gating_witness :
    (∀ st ∈
       [Step.cred,
        Step.phase ⟨["s1"], true, [Leaf.puppet_stop]⟩,
        Step.phase ⟨["pp"], true, [Leaf.puppet_git_update]⟩,
        Step.phase ⟨["s1"], true, [Leaf.search_uninstall]⟩,
        Step.phase ⟨["s1"], true, [Leaf.apt_update]⟩,
        Step.phase ⟨["s1"], true, [Leaf.search_stop]⟩,
        Step.phase ⟨["s1"], true, [Leaf.puppet_run]⟩,
        Step.phase ⟨["s1"], true, [Leaf.search_start]⟩,
        Step.phase ⟨["s1"], true, [Leaf.puppet_start]⟩],
       stepHas leafIsDelete st = false) ∧
    (∃ A B n, cluster.search.upgrade_host ⟨["s1"], [], [], "pp", none⟩ "t1"
          true false true "pp0" =
        A ++ Step.phase ⟨["t1"], false, [Leaf.search_delete_index n]⟩ :: B ∧
      (∀ st ∈ A, stepHas leafIsDelete st = false ∧ stepHas leafIsUninstall st = false ∧
         stepHas leafIsApplyConfig st = false) ∧
      (∀ st ∈ B, stepHas leafIsDelete st = false)) :=
  ⟨delete_index_gating.1 ⟨["s1"], [], [], "pp", none⟩ false true
     [Step.cred,
      Step.phase ⟨["s1"], true, [Leaf.puppet_stop]⟩,
      Step.phase ⟨["pp"], true, [Leaf.puppet_git_update]⟩,
      Step.phase ⟨["s1"], true, [Leaf.search_uninstall]⟩,
      Step.phase ⟨["s1"], true, [Leaf.apt_update]⟩,
      Step.phase ⟨["s1"], true, [Leaf.search_stop]⟩,
      Step.phase ⟨["s1"], true, [Leaf.puppet_run]⟩,
      Step.phase ⟨["s1"], true, [Leaf.search_start]⟩,
      Step.phase ⟨["s1"], true, [Leaf.puppet_start]⟩] rfl,
   delete_index_gating.2.2.2 ⟨["s1"], [], [], "pp", none⟩ "t1" false true "pp0"⟩

/-- Helper: every call a job run issues is on the given host with a leaf of
the job. -/
theorem runJob_mem (f : String → Leaf → Bool) (h : String) (job : List Leaf) :
    ∀ c ∈ (runJob f h job).1, c.host = h ∧ c.leaf ∈ job := by
  induction job with
  | nil => intro c hc; simp [runJob] at hc
  | cons l ls ih =>
    intro c hc
    rw [runJob] at hc
    by_cases hf : f h l
    · rw [if_pos hf] at hc
      simp only [List.mem_cons, List.not_mem_nil, or_false] at hc
      subst hc
      exact ⟨rfl, List.mem_cons_self l ls⟩
    · rw [if_neg hf] at hc
      simp only [List.mem_cons] at hc
      rcases hc with rfl | hc
      · exact ⟨rfl, List.mem_cons_self l ls⟩
      · obtain ⟨hh, hb⟩ := ih c hc
        exact ⟨hh, List.mem_cons_of_mem l hb⟩

/-- Helper: serial dispatch past a succeeding host continues with the
remaining hosts. -/
theorem runSerialHosts_cons_ok (f : String → Leaf → Bool) (job : List Leaf)
    (h : String) (hs : List String) (hh : (runJob f h job).2 = none) :
    runSerialHosts f job (h :: hs) =
      ((runJob f h job).1 ++ (runSerialHosts f job hs).1,
       (runSerialHosts f job hs).2) := by
  rcases hj : runJob f h job with ⟨cs, _ | l⟩
  · simp [runSerialHosts, hj]
  · rw [hj] at hh
    simp at hh

/-- Helper: serial dispatch stops at a failing host, reporting that host
and its failing leaf. -/
theorem runSerialHosts_cons_fail (f : String → Leaf → Bool) (job : List Leaf)
    (h : String) (hs : List String) (l : Leaf)
    (hh : (runJob f h job).2 = some l) :
    runSerialHosts f job (h :: hs) = ((runJob f h job).1, some (Call.mk h l)) := by
  rcases hj : runJob f h job with ⟨cs, _ | l2⟩
  · rw [hj] at hh
    simp at hh
  · rw [hj] at hh
    obtain rfl : l2 = l := by simpa using hh
    simp [runSerialHosts, hj]

/-- Helper: serial dispatch over succeeding hosts followed by a failing
one issues exactly the calls of the succeeding hosts then the calls of the
failing host, reports the failing host, and never reaches the remaining hosts. -/
theorem runSerialHosts_split (f : String → Leaf → Bool) (job : List Leaf)
    (pre suf : List String) (k : String) (l : Leaf)
    (hpre : ∀ h ∈ pre, (runJob f h job).2 = none)
    (hk : (runJob f k job).2 = some l) :
    runSerialHosts f job (pre ++ k :: suf) =
      ((pre.map (fun h => (runJob f h job).1)).flatten ++ (runJob f k job).1,
       some (Call.mk k l)) := by
  induction pre with
  | nil =>
    rw [List.nil_append, runSerialHosts_cons_fail f job k suf l hk]
    simp
  | cons h hs ih =>
    have hh : (runJob f h job).2 = none := hpre h (List.mem_cons_self h hs)
    rw [List.cons_append, runSerialHosts_cons_ok f job h _ hh,
      ih (fun x hx => hpre x (List.mem_cons_of_mem h hx))]
    simp [List.append_assoc]

/-- Helper: the per-host call lists of a single always-succeeding leaf
flatten to one call per host in group order. -/
theorem flatten_runJob_single (f : String → Leaf → Bool) (l : Leaf)
    (hs : List String) (h : ∀ x ∈ hs, f x l = false) :
    (hs.map (fun x => (runJob f x [l]).1)).flatten =
      hs.map (fun x => Call.mk x l) := by
  induction hs with
  | nil => rfl
  | cons x xs ih =>
    have hx : f x l = false := h x (List.mem_cons_self x xs)
    simp only [List.map_cons, List.flatten_cons]
    rw [ih (fun y hy => h y (List.mem_cons_of_mem x hy))]
    simp [runJob, hx]

/-- Helper: a single always-succeeding leaf produces no per-host failure. -/
theorem filterMap_runJob_single (f : String → Leaf → Bool) (l : Leaf)
    (hs : List String) (h : ∀ x ∈ hs, f x l = false) :
    hs.filterMap (fun x => Option.map (Call.mk x) (runJob f x [l]).2) = [] := by
  induction hs with
  | nil => rfl
  | cons x xs ih =>
    have hx : f x l = false := h x (List.mem_cons_self x xs)
    simp only [List.filterMap_cons]
    rw [ih (fun y hy => h y (List.mem_cons_of_mem x hy))]
    simp [runJob, hx]

/-- Helper: dispatching a single always-succeeding leaf in parallel issues
one call per host in group order and reports no failure. -/
theorem runParallelHosts_single (f : String → Leaf → Bool) (l : Leaf)
    (hs : List String) (h : ∀ x ∈ hs, f x l = false) :
    runParallelHosts f [l] hs = (hs.map (fun x => Call.mk x l), none) := by
  rw [runParallelHosts, flatten_runJob_single f l hs h,
    filterMap_runJob_single f l hs h]
  rfl

/-- Helper: the credential step issues no call. -/
theorem runSteps_cons_cred (f : String → Leaf → Bool) (ss : List Step) :
    runSteps f (Step.cred :: ss) = runSteps f ss := rfl

/-- Helper: the calls of a succeeding phase precede the rest of the run. -/
theorem runSteps_cons_ok (f : String → Leaf → Bool) (p : Phase) (ss : List Step)
    (cs : List Call) (h : runPhase f p = (cs, none)) :
    runSteps f (Step.phase p :: ss) =
      (cs ++ (runSteps f ss).1, (runSteps f ss).2) := by
  simp [runSteps, h]

/-- Helper: a failing phase ends the run with its calls and failure. -/
theorem runSteps_cons_fail (f : String → Leaf → Bool) (p : Phase) (ss : List Step)
    (cs : List Call) (c : Call) (h : runPhase f p = (cs, some c)) :
    runSteps f (Step.phase p :: ss) = (cs, some c) := by
  simp [runSteps, h]

/-- Helper: the full trace of the cluster-wide db upgrade when every
parallel phase succeeds, the first hosts of the group pass the maintenance
job, and host `k` fails it: the calls of the three completed parallel
phases remain, the serial maintenance phase reaches the passing hosts and then
`k`, the run stops with the failure on `k`, and the start-agent phase is
never
dispatched. -/
theorem runSteps_db_upgrade_steps (env : Env) (f : String → Leaf → Bool)
    (pre suf : List String) (k : String) (l : Leaf) (D : List String)
    (hD : D = pre ++ k :: suf)
    (h1 : ∀ h ∈ D, f h Leaf.puppet_stop = false)
    (h2 : f env.puppet Leaf.puppet_git_update = false)
    (h3 : ∀ h ∈ D, f h Leaf.puppet_run = false)
    (hpre : ∀ h ∈ pre, (runJob f h cluster.db.upgrade_host_internal).2 = none)
    (hk : (runJob f k cluster.db.upgrade_host_internal).2 = some l) :
    runSteps f (cluster.db.upgrade_steps env D) =
      (D.map (fun h => Call.mk h Leaf.puppet_stop) ++
       [Call.mk env.puppet Leaf.puppet_git_update] ++
       D.map (fun h => Call.mk h Leaf.puppet_run) ++
       ((pre.map (fun h => (runJob f h cluster.db.upgrade_host_internal).1)).flatten ++
        (runJob f k cluster.db.upgrade_host_internal).1),
       some (Call.mk k l)) := by
  have hp1 : runPhase f ⟨D, true, [Leaf.puppet_stop]⟩ =
      (D.map (fun h => Call.mk h Leaf.puppet_stop), none) := by
    rw [runPhase]
    exact runParallelHosts_single f Leaf.puppet_stop D h1
  have hp2 : runPhase f ⟨[env.puppet], true, [Leaf.puppet_git_update]⟩ =
      ([Call.mk env.puppet Leaf.puppet_git_update], none) := by
    rw [runPhase]
    exact runParallelHosts_single f Leaf.puppet_git_update [env.puppet]
      (by intro x hx; simp only [List.mem_cons, List.not_mem_nil, or_false] at hx
          subst hx; exact h2)
  have hp3 : runPhase f ⟨D, true, [Leaf.puppet_run]⟩ =
      (D.map (fun h => Call.mk h Leaf.puppet_run), none) := by
    rw [runPhase]
    exact runParallelHosts_single f Leaf.puppet_run D h3
  have hp4 : runPhase f ⟨D, false, cluster.db.upgrade_host_internal⟩ =
      ((pre.map (fun h => (runJob f h cluster.db.upgrade_host_internal).1)).flatten ++
        (runJob f k cluster.db.upgrade_host_internal).1,
       some (Call.mk k l)) := by
    rw [runPhase]
    show runSerialHosts f cluster.db.upgrade_host_internal D = _
    rw [hD]
    exact runSerialHosts_split f cluster.db.upgrade_host_internal pre suf k l hpre hk
  rw [cluster.db.upgrade_steps, runSteps_cons_cred,
    runSteps_cons_ok f _ _ _ hp1, runSteps_cons_ok f _ _ _ hp2,
    runSteps_cons_ok f _ _ _ hp3,
    runSteps_cons_fail f _ _ _ _ hp4]
  simp [List.append_assoc]

/-- C6: when a leaf operation of the serial maintenance phase of the
cluster-wide db upgrade fails on host `k` of the group (the preceding
hosts passing, the earlier parallel phases succeeding), the resulting
resulting trace contains exactly the calls of the completed phases followed
by the maintenance calls of the passing hosts and of `k` (completed phases
are not
rolled back), the surfaced failure names host `k` and the failing leaf, no
maintenance operation is ever dispatched to a host after `k`, and the
subsequent start-agent phase is never started. -/
theorem db_serial_phase_failure (env : Env) (f : String → Leaf → Bool)
    (pre suf : List String) (k : String) (l : Leaf) (steps : List Step)
    (hdb : env.db = pre ++ k :: suf)
    (hnd : env.db.Nodup)
    (h1 : ∀ h ∈ env.db, f h Leaf.puppet_stop = false)
    (h2 : f env.puppet Leaf.puppet_git_update = false)
    (h3 : ∀ h ∈ env.db, f h Leaf.puppet_run = false)
    (hpre : ∀ h ∈ pre, (runJob f h cluster.db.upgrade_host_internal).2 = none)
    (hk : (runJob f k cluster.db.upgrade_host_internal).2 = some l)
    (hok : cluster.db.upgrade env = Except.ok steps) :
    runSteps f steps =
      (env.db.map (fun h => Call.mk h Leaf.puppet_stop) ++
       [Call.mk env.puppet Leaf.puppet_git_update] ++
       env.db.map (fun h => Call.mk h Leaf.puppet_run) ++
       ((pre.map (fun h => (runJob f h cluster.db.upgrade_host_internal).1)).flatten ++
        (runJob f k cluster.db.upgrade_host_internal).1),
       some (Call.mk k l)) ∧
    (∀ h ∈ suf, ∀ c ∈ (runSteps f steps).1,
       c.host = h → c.leaf ∉ cluster.db.upgrade_host_internal) ∧
    (∀ c ∈ (runSteps f steps).1, c.leaf ≠ Leaf.puppet_start) := by
  have hsteps : steps = cluster.db.upgrade_steps env env.db := by
    rw [cluster.db.upgrade.eq_def] at hok
    rcases hd : env.db with _ | ⟨d0, d⟩ <;> rw [hd] at hok
    · simp at hok
    · simp only [Except.ok.injEq] at hok
      subst hok
      rfl
  subst hsteps
  have htrace := runSteps_db_upgrade_steps env f pre suf k l env.db hdb h1 h2 h3 hpre hk
  rw [hdb] at hnd
  have hdisj : List.Disjoint pre (k :: suf) := List.disjoint_of_nodup_append hnd
  have hknotin : k ∉ suf := (List.nodup_cons.mp hnd.of_append_right).1
  have hsplit : ∀ c, c ∈ (runSteps f (cluster.db.upgrade_steps env env.db)).1 →
      c ∈ env.db.map (fun h => Call.mk h Leaf.puppet_stop) ∨
      c = Call.mk env.puppet Leaf.puppet_git_update ∨
      c ∈ env.db.map (fun h => Call.mk h Leaf.puppet_run) ∨
      c ∈ (pre.map (fun h => (runJob f h cluster.db.upgrade_host_internal).1)).flatten ∨
      c ∈ (runJob f k cluster.db.upgrade_host_internal).1 := by
    intro c hc
    rw [htrace] at hc
    simpa [List.mem_append, or_assoc] using hc
  refine ⟨htrace, ?_, ?_⟩
  · intro h hsuf c hc hhost hleaf
    rcases hsplit c hc with hc1 | hc2 | hc3 | hc4 | hc5
    · obtain ⟨x, _, hxc⟩ := List.mem_map.mp hc1
      rw [← hxc] at hleaf
      simp [cluster.db.upgrade_host_internal] at hleaf
    · rw [hc2] at hleaf
      simp [cluster.db.upgrade_host_internal] at hleaf
    · obtain ⟨x, _, hxc⟩ := List.mem_map.mp hc3
      rw [← hxc] at hleaf
      simp [cluster.db.upgrade_host_internal] at hleaf
    · obtain ⟨cs, hcs, hcc⟩ := List.mem_flatten.mp hc4
      obtain ⟨x, hx, hxc⟩ := List.mem_map.mp hcs
      rw [← hxc] at hcc
      have hhx := (runJob_mem f x cluster.db.upgrade_host_internal c hcc).1
      rw [hhost] at hhx
      exact hdisj hx (hhx ▸ List.mem_cons_of_mem k hsuf)
    · have hhk := (runJob_mem f k cluster.db.upgrade_host_internal c hc5).1
      rw [hhost] at hhk
      exact hknotin (hhk ▸ hsuf)
  · intro c hc
    rcases hsplit c hc with hc1 | hc2 | hc3 | hc4 | hc5
    · obtain ⟨x, _, hxc⟩ := List.mem_map.mp hc1
      rw [← hxc]
      simp
    · rw [hc2]
      simp
    · obtain ⟨x, _, hxc⟩ := List.mem_map.mp hc3
      rw [← hxc]
      simp
    · obtain ⟨cs, hcs, hcc⟩ := List.mem_flatten.mp hc4
      obtain ⟨x, hx, hxc⟩ := List.mem_map.mp hcs
      rw [← hxc] at hcc
      have hcl := (runJob_mem f x cluster.db.upgrade_host_internal c hcc).2
      intro heq
      rw [heq] at hcl
      simp [cluster.db.upgrade_host_internal] at hcl
    · have hcl := (runJob_mem f k cluster.db.upgrade_host_internal c hc5).2
      intro heq
      rw [heq] at hcl
      simp [cluster.db.upgrade_host_internal] at hcl

/-- Witness for C6: a three-node db group where `db.stop` fails on the
second host during the serial maintenance phase. -/
theorem db_serial_phase_failure_witness :
    runSteps (fun h l => decide (h = "d2" ∧ l = Leaf.db_stop))
      [Step.cred,
       Step.phase ⟨["d1", "d2", "d3"], true, [Leaf.puppet_stop]⟩,
       Step.phase ⟨["pp"], true, [Leaf.puppet_git_update]⟩,
       Step.phase ⟨["d1", "d2", "d3"], true, [Leaf.puppet_run]⟩,
       Step.phase ⟨["d1", "d2", "d3"], false, cluster.db.upgrade_host_internal⟩,
       Step.phase ⟨["d1", "d2", "d3"], true, [Leaf.puppet_start]⟩] =
      (["d1", "d2", "d3"].map (fun h => Call.mk h Leaf.puppet_stop) ++
       [Call.mk "pp" Leaf.puppet_git_update] ++
       ["d1", "d2", "d3"].map (fun h => Call.mk h Leaf.puppet_run) ++
       ((["d1"].map (fun h => (runJob (fun h l => decide (h = "d2" ∧ l = Leaf.db_stop))
           h cluster.db.upgrade_host_internal).1)).flatten ++
        (runJob (fun h l => decide (h = "d2" ∧ l = Leaf.db_stop))
          "d2" cluster.db.upgrade_host_internal).1),
       some (Call.mk "d2" Leaf.db_stop)) ∧
    (∀ h ∈ ["d3"], ∀ c ∈ (runSteps (fun h l => decide (h = "d2" ∧ l = Leaf.db_stop))
        [Step.cred,
         Step.phase ⟨["d1", "d2", "d3"], true, [Leaf.puppet_stop]⟩,
         Step.phase ⟨["pp"], true, [Leaf.puppet_git_update]⟩,
         Step.phase ⟨["d1", "d2", "d3"], true, [Leaf.puppet_run]⟩,
         Step.phase ⟨["d1", "d2", "d3"], false, cluster.db.upgrade_host_internal⟩,
         Step.phase ⟨["d1", "d2", "d3"], true, [Leaf.puppet_start]⟩]).1,
       c.host = h → c.leaf ∉ cluster.db.upgrade_host_internal) ∧
    (∀ c ∈ (runSteps (fun h l => decide (h = "d2" ∧ l = Leaf.db_stop))
        [Step.cred,
         Step.phase ⟨["d1", "d2", "d3"], true, [Leaf.puppet_stop]⟩,
         Step.phase ⟨["pp"], true, [Leaf.puppet_git_update]⟩,
         Step.phase ⟨["d1", "d2", "d3"], true, [Leaf.puppet_run]⟩,
         Step.phase ⟨["d1", "d2", "d3"], false, cluster.db.upgrade_host_internal⟩,
         Step.phase ⟨["d1", "d2", "d3"], true, [Leaf.puppet_start]⟩]).1,
       c.leaf ≠ Leaf.puppet_start) :=
  db_serial_phase_failure ⟨[], [], ["d1", "d2", "d3"], "pp", none⟩
    (fun h l => decide (h = "d2" ∧ l = Leaf.db_stop)) ["d1"] ["d3"] "d2" Leaf.db_stop
    [Step.cred,
     Step.phase ⟨["d1", "d2", "d3"], true, [Leaf.puppet_stop]⟩,
     Step.phase ⟨["pp"], true, [Leaf.puppet_git_update]⟩,
     Step.phase ⟨["d1", "d2", "d3"], true, [Leaf.puppet_run]⟩,
     Step.phase ⟨["d1", "d2", "d3"], false, cluster.db.upgrade_host_internal⟩,
     Step.phase ⟨["d1", "d2", "d3"], true, [Leaf.puppet_start]⟩]
    rfl (by decide) (by decide) (by decide) (by decide) (by decide) (by decide) rfl
